import Mathlib

/-
Verification of the raw-layer ingestion module (src/extract_ingest.py).

The Python module is shallowly embedded: pure helpers (column-name
normalization, email cleaning, key construction) become executable Lean
functions over List Char / String; the per-item orchestration loops of
process_s3_prefix / process_postgres_tables / process_google_sheet become
pure step functions over an explicit RunState, with the external world
(object bodies, database rows, spreadsheet cells) represented as the
deterministic result each read eventually produces during one run.

Embedding conventions:
- Python str.strip / regex \s are modelled over the ASCII whitespace set
  (tab, newline, vertical tab, form feed, carriage return, space); all
  character classes used by the module's regexes are ASCII classes.
- datetime.datetime.utcnow() is modelled by a UtcTime value supplied once
  per run; strftime produces zero-padded decimal fields.
- Exceptions are modelled with Except; a function the code wraps in
  try/except appears as a match on the Except value.
- hashlib.md5 of the schema string is abstracted to the schema string
  itself (no claim depends on digest properties, only on the record being
  present), and pandas dtype names are abstracted to the constant "object".
-/

/- ASCII character classes used by the module's regexes (by code point). -/

def wsChar (c : Char) : Bool :=
  c.toNat == 9 || c.toNat == 10 || c.toNat == 11 || c.toNat == 12 ||
  c.toNat == 13 || c.toNat == 32

def underChar (c : Char) : Bool := c.toNat == 95

/- The class [\s/\\.-] of normalize_column_name's first re.sub. -/
def runChar (c : Char) : Bool :=
  wsChar c || c.toNat == 47 || c.toNat == 92 || c.toNat == 46 || c.toNat == 45

def digitChar (c : Char) : Bool := decide (48 ≤ c.toNat ∧ c.toNat ≤ 57)

def upperChar (c : Char) : Bool := decide (65 ≤ c.toNat ∧ c.toNat ≤ 90)

def lowChar (c : Char) : Bool := decide (97 ≤ c.toNat ∧ c.toNat ≤ 122)

/- The class [0-9a-zA-Z_] kept by normalize_column_name's second re.sub. -/
def keepChar (c : Char) : Bool := digitChar c || upperChar c || lowChar c || underChar c

/- Characters that can appear in a normalize_column_name result. -/
def keepLow (c : Char) : Bool := digitChar c || lowChar c || underChar c

/- Python str.lower restricted to ASCII letters. -/
def lowerC (c : Char) : Char :=
  if 65 ≤ c.toNat ∧ c.toNat ≤ 90 then Char.ofNat (c.toNat + 32) else c

/- Python str.strip over the ASCII whitespace set. -/
def stripL (l : List Char) : List Char :=
  ((l.dropWhile wsChar).reverse.dropWhile wsChar).reverse

/- col.replace("\n", " ") of normalize_column_name. -/
def nlToSp (c : Char) : Char := if c.toNat == 10 then ' ' else c

/- re.sub(r"[X]+", r, s): every maximal run of class-p characters becomes
the single character r. -/
def squashRuns (p : Char → Bool) (r : Char) : List Char → List Char
  | [] => []
  | c :: rest =>
    if p c then
      match rest with
      | [] => [r]
      | d :: _ => if p d then squashRuns p r rest else r :: squashRuns p r rest
    else c :: squashRuns p r rest

/- normalize_column_name (src/extract_ingest.py lines 92-101):
strip, replace "\n" by " ", collapse [\s/\\.-]+ runs to "_", drop characters
outside [0-9a-zA-Z_], lowercase, collapse "_"+ runs to "_". -/
def normColL (l : List Char) : List Char :=
  squashRuns underChar '_'
    (List.map lowerC
      (List.filter keepChar
        (squashRuns runChar '_'
          (List.map nlToSp (stripL l)))))

def normalize_column_name (s : String) : String := String.mk (normColL s.data)

/- Character class lemmas, phrased over code points so omega can finish. -/

lemma char_eq_of_toNat {c d : Char} (h : c.toNat = d.toNat) : c = d :=
  Char.ext (UInt32.toNat.inj h)

lemma charOfNat_toNat (n : Nat) (h : n.isValidChar) : (Char.ofNat n).toNat = n := by
  unfold Char.ofNat
  rw [dif_pos h]
  rfl

lemma lowerC_toNat (c : Char) :
    (lowerC c).toNat = if 65 ≤ c.toNat ∧ c.toNat ≤ 90 then c.toNat + 32 else c.toNat := by
  unfold lowerC
  split
  case isTrue h => exact charOfNat_toNat _ (Or.inl (by omega))
  case isFalse h => rfl

lemma lowerC_eq_self {c : Char} (h : ¬ (65 ≤ c.toNat ∧ c.toNat ≤ 90)) : lowerC c = c := by
  unfold lowerC
  exact if_neg h

lemma keepChar_iff (c : Char) : keepChar c = true ↔
    (48 ≤ c.toNat ∧ c.toNat ≤ 57) ∨ (65 ≤ c.toNat ∧ c.toNat ≤ 90) ∨
    (97 ≤ c.toNat ∧ c.toNat ≤ 122) ∨ c.toNat = 95 := by
  simp only [keepChar, digitChar, upperChar, lowChar, underChar, Bool.or_eq_true,
    decide_eq_true_eq, beq_iff_eq]
  tauto

lemma keepLow_iff (c : Char) : keepLow c = true ↔
    (48 ≤ c.toNat ∧ c.toNat ≤ 57) ∨ (97 ≤ c.toNat ∧ c.toNat ≤ 122) ∨ c.toNat = 95 := by
  simp only [keepLow, digitChar, lowChar, underChar, Bool.or_eq_true,
    decide_eq_true_eq, beq_iff_eq]
  tauto

lemma wsChar_iff (c : Char) : wsChar c = true ↔
    c.toNat = 9 ∨ c.toNat = 10 ∨ c.toNat = 11 ∨ c.toNat = 12 ∨
    c.toNat = 13 ∨ c.toNat = 32 := by
  simp only [wsChar, Bool.or_eq_true, beq_iff_eq]
  tauto

lemma runChar_iff (c : Char) : runChar c = true ↔
    (c.toNat = 9 ∨ c.toNat = 10 ∨ c.toNat = 11 ∨ c.toNat = 12 ∨
     c.toNat = 13 ∨ c.toNat = 32) ∨
    c.toNat = 47 ∨ c.toNat = 92 ∨ c.toNat = 46 ∨ c.toNat = 45 := by
  simp only [runChar, wsChar, Bool.or_eq_true, beq_iff_eq]
  tauto

lemma underChar_iff (c : Char) : underChar c = true ↔ c.toNat = 95 := by
  simp only [underChar, beq_iff_eq]

lemma keepLow_of_keep_lower {c : Char} (h : keepChar c = true) :
    keepLow (lowerC c) = true := by
  rw [keepChar_iff] at h
  rw [keepLow_iff, lowerC_toNat]
  split <;> omega

lemma keepLow_not_ws {c : Char} (h : keepLow c = true) : wsChar c = false := by
  rw [keepLow_iff] at h
  rw [Bool.eq_false_iff]
  intro hw
  rw [wsChar_iff] at hw
  omega

lemma keepLow_not_nl {c : Char} (h : keepLow c = true) : nlToSp c = c := by
  rw [keepLow_iff] at h
  unfold nlToSp
  have hne : (c.toNat == 10) = false := by
    rw [beq_eq_false_iff_ne]
    omega
  rw [hne]
  simp

lemma keepLow_not_run {c : Char} (h : keepLow c = true) : runChar c = false := by
  rw [keepLow_iff] at h
  rw [Bool.eq_false_iff]
  intro hr
  rw [runChar_iff] at hr
  omega

lemma keepLow_keep {c : Char} (h : keepLow c = true) : keepChar c = true := by
  rw [keepLow_iff] at h
  rw [keepChar_iff]
  omega

lemma keepLow_lowerC {c : Char} (h : keepLow c = true) : lowerC c = c := by
  rw [keepLow_iff] at h
  apply lowerC_eq_self
  omega

/- squashRuns equation lemmas. -/

lemma squashRuns_cons_neg (p : Char → Bool) (r a : Char) (l : List Char) (h : p a = false) :
    squashRuns p r (a :: l) = a :: squashRuns p r l := by
  rw [squashRuns.eq_def]
  simp [h]

lemma squashRuns_single_pos (p : Char → Bool) (r a : Char) (h : p a = true) :
    squashRuns p r [a] = [r] := by
  rw [squashRuns.eq_def]
  simp [h]

lemma squashRuns_cons2_pos_pos (p : Char → Bool) (r a d : Char) (l : List Char)
    (ha : p a = true) (hd : p d = true) :
    squashRuns p r (a :: d :: l) = squashRuns p r (d :: l) := by
  rw [squashRuns.eq_def]
  simp [ha, hd]

lemma squashRuns_cons2_pos_neg (p : Char → Bool) (r a d : Char) (l : List Char)
    (ha : p a = true) (hd : p d = false) :
    squashRuns p r (a :: d :: l) = r :: squashRuns p r (d :: l) := by
  rw [squashRuns.eq_def]
  simp [ha, hd]

lemma squashRuns_mem (p : Char → Bool) (r : Char) :
    ∀ l c, c ∈ squashRuns p r l → c ∈ l ∨ c = r := by
  intro l
  induction l with
  | nil => intro c hc; simp [squashRuns] at hc
  | cons a rest ih =>
    intro c hc
    by_cases hpa : p a = true
    · cases rest with
      | nil =>
        rw [squashRuns_single_pos p r a hpa] at hc
        right
        simpa using hc
      | cons d rest2 =>
        by_cases hpd : p d = true
        · rw [squashRuns_cons2_pos_pos p r a d rest2 hpa hpd] at hc
          rcases ih c hc with h | h
          · left; exact List.mem_cons_of_mem _ h
          · right; exact h
        · rw [squashRuns_cons2_pos_neg p r a d rest2 hpa
            (Bool.eq_false_iff.mpr hpd)] at hc
          rcases List.mem_cons.mp hc with h | h
          · right; exact h
          · rcases ih c h with h2 | h2
            · left; exact List.mem_cons_of_mem _ h2
            · right; exact h2
    · rw [squashRuns_cons_neg p r a rest (Bool.eq_false_iff.mpr hpa)] at hc
      rcases List.mem_cons.mp hc with h | h
      · left; simp [h]
      · rcases ih c h with h2 | h2
        · left; exact List.mem_cons_of_mem _ h2
        · right; exact h2

lemma squashRuns_id (p : Char → Bool) (r : Char) :
    ∀ l, (∀ c ∈ l, p c = false) → squashRuns p r l = l := by
  intro l
  induction l with
  | nil => intro _; rfl
  | cons a rest ih =>
    intro h
    rw [squashRuns_cons_neg p r a rest (h a (List.mem_cons_self a rest))]
    rw [ih (fun c hc => h c (List.mem_cons_of_mem _ hc))]

/- No two adjacent underscores (the shape squashRuns underChar produces). -/
def noAdjU : List Char → Bool
  | [] => true
  | [_] => true
  | c :: d :: rest => (!(underChar c && underChar d)) && noAdjU (d :: rest)

lemma noAdjU_cons2 (a d : Char) (l : List Char) :
    noAdjU (a :: d :: l) = ((!(underChar a && underChar d)) && noAdjU (d :: l)) := rfl

lemma noAdjU_cons_of_neg {a : Char} (h : underChar a = false) (l : List Char) :
    noAdjU (a :: l) = noAdjU l := by
  cases l with
  | nil => rfl
  | cons d rest => rw [noAdjU_cons2, h]; simp

lemma squashU_noAdj : ∀ l, noAdjU (squashRuns underChar '_' l) = true := by
  intro l
  induction l with
  | nil => rfl
  | cons a rest ih =>
    by_cases ha : underChar a = true
    · cases rest with
      | nil => rw [squashRuns_single_pos underChar '_' a ha]; rfl
      | cons d rest2 =>
        by_cases hd : underChar d = true
        · rw [squashRuns_cons2_pos_pos underChar '_' a d rest2 ha hd]
          exact ih
        · have hd' : underChar d = false := Bool.eq_false_iff.mpr hd
          rw [squashRuns_cons2_pos_neg underChar '_' a d rest2 ha hd']
          rw [squashRuns_cons_neg underChar '_' d rest2 hd'] at ih ⊢
          rw [noAdjU_cons2, hd']
          simpa using ih
    · have ha' : underChar a = false := Bool.eq_false_iff.mpr ha
      rw [squashRuns_cons_neg underChar '_' a rest ha']
      rw [noAdjU_cons_of_neg ha']
      exact ih

lemma squashU_id_of_noAdj : ∀ l, noAdjU l = true → squashRuns underChar '_' l = l := by
  intro l
  induction l with
  | nil => intro _; rfl
  | cons a rest ih =>
    intro h
    by_cases ha : underChar a = true
    · have haeq : a = '_' := by
        apply char_eq_of_toNat
        rw [underChar_iff] at ha
        rw [ha]; rfl
      cases rest with
      | nil => rw [squashRuns_single_pos underChar '_' a ha, haeq]
      | cons d rest2 =>
        rw [noAdjU_cons2] at h
        obtain ⟨h1, h2⟩ : (!(underChar a && underChar d)) = true ∧ noAdjU (d :: rest2) = true := by
          simpa using h
        have hd : underChar d = false := by
          rw [ha] at h1
          simpa using h1
        rw [squashRuns_cons2_pos_neg underChar '_' a d rest2 ha hd, haeq]
        rw [ih h2]
    · have ha' : underChar a = false := Bool.eq_false_iff.mpr ha
      rw [squashRuns_cons_neg underChar '_' a rest ha']
      rw [noAdjU_cons_of_neg ha'] at h
      rw [ih h]

/- Identity lemmas for each normalization stage on already-normalized text. -/

lemma dropWhile_id_of (p : Char → Bool) (l : List Char)
    (h : ∀ c ∈ l, p c = false) : l.dropWhile p = l := by
  cases l with
  | nil => rfl
  | cons a rest =>
    rw [List.dropWhile_cons]
    rw [h a (List.mem_cons_self a rest)]
    simp

lemma stripL_id (l : List Char) (h : ∀ c ∈ l, wsChar c = false) : stripL l = l := by
  unfold stripL
  rw [dropWhile_id_of wsChar l h]
  rw [dropWhile_id_of wsChar l.reverse (fun c hc => h c (List.mem_reverse.mp hc))]
  exact List.reverse_reverse l

lemma map_id_of (f : Char → Char) (l : List Char)
    (h : ∀ c ∈ l, f c = c) : l.map f = l := by
  induction l with
  | nil => rfl
  | cons a rest ih =>
    rw [List.map_cons, h a (List.mem_cons_self a rest),
      ih (fun c hc => h c (List.mem_cons_of_mem _ hc))]

/- Every character of a normalize_column_name result is a digit, a lowercase
ASCII letter, or an underscore. -/
lemma normColL_chars (l : List Char) : ∀ c ∈ normColL l, keepLow c = true := by
  intro c hc
  unfold normColL at hc
  rcases squashRuns_mem underChar '_' _ c hc with h | h
  · rcases List.mem_map.mp h with ⟨d, hd, hde⟩
    rw [← hde]
    exact keepLow_of_keep_lower (List.of_mem_filter hd)
  · rw [h]
    decide

lemma normColL_idem (l : List Char) : normColL (normColL l) = normColL l := by
  have hchars : ∀ c ∈ normColL l, keepLow c = true := normColL_chars l
  have hnadj : noAdjU (normColL l) = true := by
    unfold normColL
    exact squashU_noAdj _
  generalize hX : normColL l = X at hchars hnadj
  conv_rhs => rw [← hX]
  rw [hX]
  unfold normColL
  rw [stripL_id X (fun c hc => keepLow_not_ws (hchars c hc))]
  rw [map_id_of nlToSp X (fun c hc => keepLow_not_nl (hchars c hc))]
  rw [squashRuns_id runChar '_' X (fun c hc => keepLow_not_run (hchars c hc))]
  rw [List.filter_eq_self.mpr (fun c hc => keepLow_keep (hchars c hc))]
  rw [map_id_of lowerC X (fun c hc => keepLow_lowerC (hchars c hc))]
  exact squashU_id_of_noAdj X hnadj

/-- C8: normalize_column_name canonicalizes column names (trim, collapse
whitespace/slash/dot/hyphen runs to "_", strip other characters, lowercase,
collapse repeated underscores); "Customer ID" maps to "customer_id", and the
function is idempotent: applying it twice equals applying it once. -/
theorem normalize_column_name_customer_id_and_idem :
    normalize_column_name "Customer ID" = "customer_id" ∧
    ∀ s : String, normalize_column_name (normalize_column_name s) =
      normalize_column_name s := by
  constructor
  · decide
  · intro s
    show String.mk (normColL (normColL s.data)) = String.mk (normColL s.data)
    rw [normColL_idem]

/- Character classes of EMAIL_REGEX = ^[A-Za-z0-9._%+-]+@[A-Za-z0-9.-]+\.[A-Za-z]{2,}$ -/

def localChar (c : Char) : Bool :=
  upperChar c || lowChar c || digitChar c || c.toNat == 46 || c.toNat == 95 ||
  c.toNat == 37 || c.toNat == 43 || c.toNat == 45

def domChar (c : Char) : Bool :=
  upperChar c || lowChar c || digitChar c || c.toNat == 46 || c.toNat == 45

def alphaChar (c : Char) : Bool := upperChar c || lowChar c

/- EMAIL_REGEX.match as a decision procedure.  Since "@" is in neither
character class, a match must split at the FIRST "@"; since "." is not in
[A-Za-z], the final \.[A-Za-z]{2,}$ segment must start at the LAST "." of
the domain part (any earlier "." would put a later "." inside the all-alpha
tail).  So the regex accepts exactly: nonempty all-localChar text before the
first "@", then a domain that contains a ".", whose text before its last "."
is nonempty and all-domChar, and whose text after its last "." is all-alpha
of length at least 2.  (re.match's "$ before a trailing newline" subtlety is
unreachable here: clean_email strips the string first and no substitution
inserts a newline.) -/
def emailMatch (l : List Char) : Bool :=
  let loc := l.takeWhile (fun c => c.toNat != 64)
  let rest := l.dropWhile (fun c => c.toNat != 64)
  match rest with
  | [] => false
  | _ :: dom =>
    let tld := (dom.reverse.takeWhile (fun c => c.toNat != 46)).reverse
    let pre := dom.take (dom.length - tld.length - 1)
    dom.any (fun c => c.toNat == 46) &&
    !loc.isEmpty && loc.all localChar &&
    !pre.isEmpty && pre.all domChar &&
    tld.all alphaChar && decide (2 ≤ tld.length)

/- Python str.replace(old, new): replace non-overlapping occurrences left to
right.  Written with a fuel parameter (the input length) so that terms reduce
by kernel evaluation; every step consumes at least one character, so the fuel
never runs out on the initial call. -/
def replaceAllGo (pat rep : List Char) : Nat → List Char → List Char
  | 0, l => l
  | _ + 1, [] => []
  | fuel + 1, c :: rest =>
    if pat.isPrefixOf (c :: rest) && !pat.isEmpty then
      rep ++ replaceAllGo pat rep fuel (rest.drop (pat.length - 1))
    else
      c :: replaceAllGo pat rep fuel rest

def replaceAll (pat rep l : List Char) : List Char := replaceAllGo pat rep l.length l

/- The substitution chain of clean_email (src/extract_ingest.py lines
117-120): strip, lower, then str.replace of "(at)", "[at]", " at " by "@",
then str.replace of the LITERAL three characters backslash-s-plus by ""
(line 120 uses str.replace, not a regex, so "\s+" is literal text). -/
def emailSubst (l : List Char) : List Char :=
  replaceAll [Char.ofNat 92, 's', '+'] []
    (replaceAll " at ".data "@".data
      (replaceAll "[at]".data "@".data
        (replaceAll "(at)".data "@".data
          (List.map lowerC (stripL l)))))

def cleanEmailL (l : List Char) : Option (List Char) :=
  if emailMatch (emailSubst l) then some (emailSubst l) else none

/- Cell values of a dataframe.  clean_email returns None for any non-string
input (line 115-116); nanv stands for the NaN pandas puts in missing cells. -/
inductive CVal where
  | str : String → CVal
  | intv : Int → CVal
  | nanv : CVal
  | nonev : CVal
deriving DecidableEq, Repr

/- clean_email (src/extract_ingest.py lines 114-123). -/
def clean_email (v : CVal) : CVal :=
  match v with
  | CVal.str s =>
    match cleanEmailL s.data with
    | some l => CVal.str (String.mk l)
    | none => CVal.nonev
  | _ => CVal.nonev

/- A pandas DataFrame as an ordered association list of named columns. -/
structure DF where
  cols : List (String × List CVal)
deriving DecidableEq, Repr

def getCol (df : DF) (n : String) : Option (List CVal) :=
  (df.cols.find? (fun p => p.1 == n)).map Prod.snd

def hasColB (df : DF) (n : String) : Bool := df.cols.any (fun p => p.1 == n)

/- df[n] = v: in-place overwrite when the label exists, append otherwise. -/
def setCol (df : DF) (n : String) (v : List CVal) : DF :=
  if hasColB df n then
    DF.mk (df.cols.map (fun p => if p.1 == n then (p.1, v) else p))
  else
    DF.mk (df.cols ++ [(n, v)])

def nrowsDF (df : DF) : Nat :=
  match df.cols with
  | [] => 0
  | c :: _ => c.2.length

def dfEmpty (df : DF) : Bool := nrowsDF df == 0

def normalizeColumns (df : DF) : DF :=
  DF.mk (df.cols.map (fun p => (normalize_column_name p.1, p.2)))

/- The email-hygiene block the three ingestion flows share (lines 308-310,
356-358, 398-400): if an "email" column exists, copy it verbatim to
"email_raw", then map clean_email over "email". -/
def emailCleanStep (df : DF) : DF :=
  match getCol df "email" with
  | none => df
  | some v => setCol (setCol df "email_raw" v) "email" (v.map clean_email)

/- Lookup lemmas for setCol. -/

lemma find?_map_sub (l : List (String × List CVal)) (n : String) (v : List CVal)
    (h : l.any (fun p => p.1 == n) = true) :
    ((l.map (fun p => if p.1 == n then (p.1, v) else p)).find?
      (fun p => p.1 == n)).map Prod.snd = some v := by
  induction l with
  | nil => simp at h
  | cons a rest ih =>
    simp only [List.any_cons, Bool.or_eq_true] at h
    by_cases ha : (a.1 == n) = true
    · simp [List.find?, ha]
    · have ha' : (a.1 == n) = false := Bool.eq_false_iff.mpr ha
      rw [List.map_cons, if_neg ha]
      simp only [List.find?, ha']
      exact ih (h.resolve_left ha)

lemma find?_append_single (l : List (String × List CVal)) (n : String) (v : List CVal)
    (h : l.any (fun p => p.1 == n) = false) :
    ((l ++ [(n, v)]).find? (fun p => p.1 == n)).map Prod.snd = some v := by
  induction l with
  | nil => simp [List.find?]
  | cons a rest ih =>
    simp only [List.any_cons, Bool.or_eq_false_iff] at h
    simp only [List.cons_append, List.find?, h.1]
    exact ih h.2

lemma find?_map_sub_ne (l : List (String × List CVal)) (n m : String) (v : List CVal)
    (h : (n == m) = false) :
    (l.map (fun p => if p.1 == n then (p.1, v) else p)).find? (fun p => p.1 == m) =
      l.find? (fun p => p.1 == m) := by
  induction l with
  | nil => rfl
  | cons a rest ih =>
    by_cases ham : (a.1 == m) = true
    · have han : ¬ ((a.1 == n) = true) := by
        have haem : a.1 = m := by simpa using ham
        intro hc
        have h1 : a.1 = n := by simpa using hc
        rw [beq_eq_false_iff_ne] at h
        exact h (h1 ▸ haem)
      rw [List.map_cons, if_neg han]
      simp only [List.find?, ham]
    · have ham' : (a.1 == m) = false := Bool.eq_false_iff.mpr ham
      by_cases han : (a.1 == n) = true
      · rw [List.map_cons, if_pos han]
        simp only [List.find?, ham']
        exact ih
      · rw [List.map_cons, if_neg han]
        simp only [List.find?, ham']
        exact ih

lemma find?_append_ne (l : List (String × List CVal)) (n m : String) (v : List CVal)
    (h : (n == m) = false) :
    (l ++ [(n, v)]).find? (fun p => p.1 == m) = l.find? (fun p => p.1 == m) := by
  induction l with
  | nil => simp [List.find?, h]
  | cons a rest ih =>
    by_cases ham : (a.1 == m) = true
    · simp only [List.cons_append, List.find?, ham]
    · have ham' : (a.1 == m) = false := Bool.eq_false_iff.mpr ham
      simp only [List.cons_append, List.find?, ham']
      exact ih

lemma getCol_setCol_self (df : DF) (n : String) (v : List CVal) :
    getCol (setCol df n v) n = some v := by
  unfold getCol setCol hasColB
  by_cases h : df.cols.any (fun p => p.1 == n) = true
  · rw [if_pos h]
    exact find?_map_sub df.cols n v h
  · rw [if_neg h]
    exact find?_append_single df.cols n v (Bool.eq_false_iff.mpr h)

lemma getCol_setCol_ne (df : DF) (n m : String) (v : List CVal)
    (h : (n == m) = false) :
    getCol (setCol df n v) m = getCol df m := by
  unfold getCol setCol hasColB
  by_cases hc : df.cols.any (fun p => p.1 == n) = true
  · rw [if_pos hc, find?_map_sub_ne df.cols n m v h]
  · rw [if_neg hc, find?_append_ne df.cols n m v h]

lemma cleanEmailL_valid (l : List Char) :
    cleanEmailL l = none ∨
      ∃ e, cleanEmailL l = some e ∧ emailMatch e = true := by
  unfold cleanEmailL
  by_cases h : emailMatch (emailSubst l) = true
  · right; exact ⟨emailSubst l, if_pos h, h⟩
  · left; exact if_neg h

/-- C7: clean_email trims, lowercases, substitutes the at-obfuscation
patterns, and returns the result exactly when it matches EMAIL_REGEX and
None otherwise, never raising; "not-an-email" yields None; and when a
DataFrame has an "email" column the original values are preserved verbatim
under "email_raw" while "email" is replaced by the cleaned values. -/
theorem clean_email_behavior :
    clean_email (CVal.str "not-an-email") = CVal.nonev ∧
    clean_email (CVal.str "J.Doe (at) Example.COM") = CVal.nonev ∧
    clean_email (CVal.str " John.DOE@Example.COM ") = CVal.str "john.doe@example.com" ∧
    (∀ s : String, clean_email (CVal.str s) = CVal.nonev ∨
      ∃ e : List Char, clean_email (CVal.str s) = CVal.str (String.mk e) ∧
        emailMatch e = true) ∧
    (∀ (df : DF) (vals : List CVal), getCol df "email" = some vals →
      getCol (emailCleanStep df) "email_raw" = some vals ∧
      getCol (emailCleanStep df) "email" = some (vals.map clean_email)) := by
  refine ⟨by decide, by decide, by decide, ?_, ?_⟩
  · intro s
    rcases cleanEmailL_valid s.data with h | ⟨e, he, hm⟩
    · left
      simp [clean_email, h]
    · right
      exact ⟨e, by simp [clean_email, he], hm⟩
  · intro df vals h
    unfold emailCleanStep
    rw [h]
    constructor
    · rw [getCol_setCol_ne _ "email" "email_raw" _ (by decide)]
      exact getCol_setCol_self df "email_raw" vals
    · exact getCol_setCol_self _ "email" _

/-- Witness for C7 at a concrete one-column DataFrame. -/
theorem clean_email_behavior_witness :
    getCol (emailCleanStep (DF.mk [("email", [CVal.str "not-an-email"])])) "email_raw"
      = some [CVal.str "not-an-email"] ∧
    getCol (emailCleanStep (DF.mk [("email", [CVal.str "not-an-email"])])) "email"
      = some [CVal.nonev] := by
  have h := (clean_email_behavior.2.2.2.2
    (DF.mk [("email", [CVal.str "not-an-email"])]) [CVal.str "not-an-email"] (by decide))
  refine ⟨h.1, ?_⟩
  rw [h.2]
  decide

/-- C10: for every non-string cell value (None, NaN, a number), clean_email
returns None without raising, so cleaning an email column containing missing
values is total. -/
theorem clean_email_non_string :
    ∀ v : CVal, (∀ s, v ≠ CVal.str s) → clean_email v = CVal.nonev := by
  intro v h
  cases v with
  | str s => exact absurd rfl (h s)
  | intv n => rfl
  | nanv => rfl
  | nonev => rfl

/-- Witness for C10 at the NaN cell value. -/
theorem clean_email_non_string_witness :
    clean_email CVal.nanv = CVal.nonev :=
  clean_email_non_string CVal.nanv (fun _ h => CVal.noConfusion h)

instance exceptDecEq {ε α : Type} [DecidableEq ε] [DecidableEq α] :
    DecidableEq (Except ε α) := fun a b =>
  match a, b with
  | Except.ok x, Except.ok y =>
    if h : x = y then Decidable.isTrue (by rw [h])
    else Decidable.isFalse (by intro hc; cases hc; exact h rfl)
  | Except.error x, Except.error y =>
    if h : x = y then Decidable.isTrue (by rw [h])
    else Decidable.isFalse (by intro hc; cases hc; exact h rfl)
  | Except.ok _, Except.error _ => Decidable.isFalse (by intro hc; cases hc)
  | Except.error _, Except.ok _ => Decidable.isFalse (by intro hc; cases hc)

/- CommitRecord: the per-item metadata dict (lines 323-329 / 368-374 /
410-416), also used as the manifest value and the sidecar payload. -/
structure CommitRecord where
  source : String
  source_path : String
  load_time_utc : String
  record_count : Nat
  schema_hash : String
deriving DecidableEq, Repr

/- The processed-files manifest: a JSON object keyed by source identifier,
modelled as an association list with unique keys. -/
abbrev Manifest := List (String × CommitRecord)

def mContains (m : Manifest) (k : String) : Bool := m.any (fun p => p.1 == k)

def mInsert (m : Manifest) (k : String) (v : CommitRecord) : Manifest := (k, v) :: m

/- datetime.datetime.utcnow(), down to microseconds. -/
structure UtcTime where
  year : Nat
  month : Nat
  day : Nat
  hour : Nat
  minute : Nat
  second : Nat
  micro : Nat
deriving DecidableEq, Repr

def pad2 (n : Nat) : String := if n < 10 then "0" ++ toString n else toString n

def pad4 (n : Nat) : String :=
  if n < 10 then "000" ++ toString n
  else if n < 100 then "00" ++ toString n
  else if n < 1000 then "0" ++ toString n
  else toString n

def pad6 (n : Nat) : String :=
  if n < 10 then "00000" ++ toString n
  else if n < 100 then "0000" ++ toString n
  else if n < 1000 then "000" ++ toString n
  else if n < 10000 then "00" ++ toString n
  else if n < 100000 then "0" ++ toString n
  else toString n

/- strftime('%Y%m%d%H%M%S'): second granularity, microseconds dropped. -/
def fmtTs (t : UtcTime) : String :=
  pad4 t.year ++ pad2 t.month ++ pad2 t.day ++ pad2 t.hour ++ pad2 t.minute ++ pad2 t.second

/- strftime('%Y-%m-%d'). -/
def fmtDate (t : UtcTime) : String :=
  pad4 t.year ++ "-" ++ pad2 t.month ++ "-" ++ pad2 t.day

/- datetime.isoformat(): microseconds only when nonzero. -/
def isoTime (t : UtcTime) : String :=
  pad4 t.year ++ "-" ++ pad2 t.month ++ "-" ++ pad2 t.day ++ "T" ++
  pad2 t.hour ++ ":" ++ pad2 t.minute ++ ":" ++ pad2 t.second ++
  (if t.micro == 0 then "" else "." ++ pad6 t.micro)

/- The out_key f-string of lines 320 / 365 / 407:
"{raw}/{source}/date={Y-m-d}/{base}_{YmdHMS}.parquet". -/
def mkOutKey (root source base : String) (t : UtcTime) : String :=
  root ++ "/" ++ source ++ "/date=" ++ fmtDate t ++ "/" ++ base ++ "_" ++
  fmtTs t ++ ".parquet"

/- hash_df_schema (lines 126-130) joins "col:dtype" with "|" and md5-hashes
it; the digest is abstracted to the joined string and dtypes to "object". -/
def hash_df_schema (df : DF) : String :=
  String.intercalate "|" (df.cols.map (fun p => p.1 ++ ":object"))

/- The two provenance columns stamped before writing (lines 313-315 etc.);
a scalar assignment broadcasts to the row count. -/
def addMetaCols (df : DF) (loadTime path : String) : DF :=
  let n := nrowsDF df
  setCol (setCol df "_ingest_load_time" (List.replicate n (CVal.str loadTime)))
    "_source_path" (List.replicate n (CVal.str path))

/- The shared per-item dataframe pipeline: normalize columns, email hygiene,
provenance columns. -/
def transformDF (df : DF) (loadTime path : String) : DF :=
  addMetaCols (emailCleanStep (normalizeColumns df)) loadTime path

def mkMeta (sourceName path loadTime : String) (df : DF) : CommitRecord :=
  { source := sourceName
    source_path := path
    load_time_utc := loadTime
    record_count := nrowsDF df
    schema_hash := hash_df_schema df }

/- One candidate of an ingestion batch, with everything the loop body needs:
the stable identifier, the extension-filter verdict, the eventual extraction
result, and the artifact path / manifest record a commit would produce. -/
structure Item where
  ident : String
  passes : Bool
  fetch : Except String DF
  outPath : String
  meta : CommitRecord
deriving DecidableEq, Repr

structure RunState where
  processed : Manifest
  writes : List String
  newProcessed : Bool
deriving DecidableEq, Repr

def initState (m : Manifest) : RunState :=
  { processed := m, writes := [], newProcessed := false }

/- The loop body shared by process_s3_prefix (lines 287-337) and
process_postgres_tables (lines 385-421): extension filter, manifest skip,
extract inside try/except (a caught exception leaves the state unchanged),
empty-dataframe skip, else write the artifact and record the commit. -/
def stepItem (st : RunState) (it : Item) : RunState :=
  if it.passes = false then st
  else if mContains st.processed it.ident then st
  else
    match it.fetch with
    | Except.error _ => st
    | Except.ok df =>
      if dfEmpty df then st
      else
        { processed := mInsert st.processed it.ident it.meta
          writes := st.writes ++ [it.outPath]
          newProcessed := true }

def runLoop (its : List Item) (st : RunState) : RunState := its.foldl stepItem st

/- An item that the loop would commit when not yet in the manifest. -/
def committableI (it : Item) : Bool :=
  it.passes &&
    (match it.fetch with
     | Except.ok df => !dfEmpty df
     | Except.error _ => false)

/- One listed object of an S3 prefix together with the parse results its
bytes would produce (the deterministic external world of one run). -/
structure S3Obj where
  bucket : String
  key : String
  size : Nat
  csvParse : Except String DF
  jsonLinesParse : Except String DF
  jsonArrayParse : Except String DF
deriving DecidableEq, Repr

def s3Path (o : S3Obj) : String := "s3://" ++ o.bucket ++ "/" ++ o.key

def lowerStr (s : String) : String := String.mk (s.data.map lowerC)

/- Python str.split(sep) for a one-character separator; never returns []. -/
def splitOnChar (sep : Char) : List Char → List (List Char)
  | [] => [[]]
  | c :: rest =>
    match splitOnChar sep rest with
    | [] => [[c]]
    | h :: t =>
      if c.toNat == sep.toNat then [] :: h :: t else (c :: h) :: t

/- key.split('.')[-1].lower() (lines 182 / 290). -/
def extOf (key : String) : String :=
  String.mk (((splitOnChar '.' key.data).getLastD []).map lowerC)

/- download_s3_to_dataframe (lines 174-195), extension dispatch: csv/txt via
read_csv, json via read_json lines=True falling back to lines=False on a
parse error, anything else raises ValueError("Unsupported extension").  The
initial "must start with s3://" guard is omitted: the orchestrator always
passes the s3:// URI it just built, so the guard cannot fire in this model. -/
def downloadS3 (o : S3Obj) : Except String DF :=
  let ext := extOf o.key
  if ext == "csv" || ext == "txt" then o.csvParse
  else if ext == "json" then
    match o.jsonLinesParse with
    | Except.ok df => Except.ok df
    | Except.error _ => o.jsonArrayParse
  else Except.error ("Unsupported extension: " ++ ext)

/- tenacity @retry(wait=wait_exponential(min=1, max=30),
stop=stop_after_attempt(5), retry=retry_if_exception_type(Exception)):
re-invokes the wrapped callable on ANY exception until 5 attempts are used,
then re-raises the last exception.  Returns (attempts used, final result);
backoff delays do not affect the value and are not modelled. -/
def retryGo (f : Nat → Except String DF) : Nat → Nat → Nat × Except String DF
  | used, 0 => (used, Except.error "retry exhausted")
  | used, rem + 1 =>
    match f used with
    | Except.ok df => (used + 1, Except.ok df)
    | Except.error e =>
      if rem == 0 then (used + 1, Except.error e)
      else retryGo f (used + 1) rem

/- The retried download of one object; within one run the callable is
deterministic (same path, same stored bytes), so every attempt returns
downloadS3 o. -/
def retriedDownload (o : S3Obj) : Nat × Except String DF :=
  retryGo (fun _ => downloadS3 o) 0 5

/- Configuration shared by the ingestion flows: raw bucket, raw key root
(S3_RAW_PREFIX), source category name, and the run's utcnow() value (the
embedding samples the clock once per run). -/
structure RunCfg where
  rawBucket : String
  rawRoot : String
  sourceName : String
  t : UtcTime
deriving DecidableEq, Repr

/- Lines 289-292: `if file_ext_filter:` — an empty list is falsy in Python,
so only a nonempty filter list filters. -/
def passesFilter (flt : Option (List String)) (key : String) : Bool :=
  match flt with
  | none => true
  | some exts => if exts.isEmpty then true else exts.contains (extOf key)

/- os.path.basename(key).split('.')[0] (line 319). -/
def baseName (key : String) : String :=
  String.mk ((splitOnChar '.' ((splitOnChar '/' key.data).getLastD [])).headD [])

/- The body of process_s3_prefix's loop for one object, as an Item. -/
def s3Item (cfg : RunCfg) (flt : Option (List String)) (o : S3Obj) : Item :=
  let path := s3Path o
  let fetch := (retriedDownload o).2
  { ident := path
    passes := passesFilter flt o.key
    fetch := fetch
    outPath := "s3://" ++ cfg.rawBucket ++ "/" ++
      mkOutKey cfg.rawRoot cfg.sourceName (baseName o.key) cfg.t
    meta :=
      match fetch with
      | Except.ok df =>
        mkMeta cfg.sourceName path (isoTime cfg.t) (transformDF df (isoTime cfg.t) path)
      | Except.error _ =>
        mkMeta cfg.sourceName path (isoTime cfg.t) (DF.mk []) }

def s3Committable (flt : Option (List String)) (o : S3Obj) : Bool :=
  passesFilter flt o.key &&
    (match (retriedDownload o).2 with
     | Except.ok df => !dfEmpty df
     | Except.error _ => false)

/- process_s3_prefix (lines 280-340): run the loop from the loaded manifest,
then write the manifest back once iff at least one new item was processed.
The second component counts write_processed_manifest calls. -/
def runS3Batch (cfg : RunCfg) (flt : Option (List String)) (objs : List S3Obj)
    (m : Manifest) : RunState × Nat :=
  let st := runLoop (objs.map (s3Item cfg flt)) (initState m)
  (st, if st.newProcessed then 1 else 0)

/- One Postgres table name with the eventual result of its retried
extract_postgres_table_to_df call. -/
structure PgTable where
  table : String
  fetch : Except String DF
deriving DecidableEq, Repr

def pgId (host db : String) (tb : PgTable) : String :=
  "postgres://" ++ host ++ "/" ++ db ++ "/" ++ tb.table

def pgItem (cfg : RunCfg) (host db : String) (tb : PgTable) : Item :=
  let ident := pgId host db tb
  { ident := ident
    passes := true
    fetch := tb.fetch
    outPath := "s3://" ++ cfg.rawBucket ++ "/" ++
      mkOutKey cfg.rawRoot cfg.sourceName tb.table cfg.t
    meta :=
      match tb.fetch with
      | Except.ok df =>
        mkMeta cfg.sourceName ident (isoTime cfg.t) (transformDF df (isoTime cfg.t) ident)
      | Except.error _ =>
        mkMeta cfg.sourceName ident (isoTime cfg.t) (DF.mk []) }

def pgCommittable (tb : PgTable) : Bool :=
  match tb.fetch with
  | Except.ok df => !dfEmpty df
  | Except.error _ => false

/- process_postgres_tables (lines 381-423): same loop shape (with per-item
try/except), but write_processed_manifest(processed) at line 423 runs
UNCONDITIONALLY after the loop — also when every candidate was skipped. -/
def runPgBatch (cfg : RunCfg) (host db : String) (tbls : List PgTable)
    (m : Manifest) : RunState × Nat :=
  let st := runLoop (tbls.map (pgItem cfg host db)) (initState m)
  (st, 1)

/- The Google-Sheets source: document id, range, and the eventual result of
extract_google_sheet_to_df (which is NOT wrapped in @retry). -/
structure SheetSrc where
  docId : String
  rangeName : String
  fetch : Except String DF
deriving DecidableEq, Repr

/- process_google_sheet (lines 343-378).  There is no try/except around the
chain, so an extraction failure propagates to the caller (run_full_ingest
does not catch it either); the Except return models that propagation. -/
def processSheet (cfg : RunCfg) (src : SheetSrc) (m : Manifest) :
    Except String (RunState × Nat) :=
  let ident := "google_sheets://" ++ src.docId ++ "/" ++ src.rangeName
  if mContains m ident then Except.ok (initState m, 0)
  else
    match src.fetch with
    | Except.error e => Except.error e
    | Except.ok df =>
      if dfEmpty df then Except.ok (initState m, 0)
      else
        let meta := mkMeta cfg.sourceName ident (isoTime cfg.t)
          (transformDF df (isoTime cfg.t) ident)
        Except.ok
          ({ processed := mInsert m ident meta
             writes := ["s3://" ++ cfg.rawBucket ++ "/" ++
               mkOutKey cfg.rawRoot cfg.sourceName "agents" cfg.t]
             newProcessed := true }, 1)

/- write_parquet_to_s3_atomic (lines 247-275): serialize to a uniquely named
scratch file, upload the data file, upload the metadata sidecar, THEN
os.remove the scratch file (line 274).  There is no try/finally, so when
either upload raises, os.remove never runs; tmpRemoved records whether it
ran.  The two upload outcomes are the external world of one call. -/
structure WriteEnv where
  dataUp : Except String Unit
  sidecarUp : Except String Unit
deriving DecidableEq, Repr

structure WriteTrace where
  tmpRemoved : Bool
  result : Except String String
deriving DecidableEq, Repr

def okB : Except String Unit → Bool
  | Except.ok _ => true
  | Except.error _ => false

def write_parquet_to_s3_atomic (env : WriteEnv) (bucket key : String) : WriteTrace :=
  match env.dataUp with
  | Except.error e => { tmpRemoved := false, result := Except.error e }
  | Except.ok _ =>
    match env.sidecarUp with
    | Except.error e => { tmpRemoved := false, result := Except.error e }
    | Except.ok _ =>
      { tmpRemoved := true, result := Except.ok ("s3://" ++ bucket ++ "/" ++ key) }

/- Manifest lemmas. -/

lemma mContains_insert_self (m : Manifest) (k : String) (v : CommitRecord) :
    mContains (mInsert m k v) k = true := by
  simp [mContains, mInsert]

lemma mContains_insert_mono (m : Manifest) (k : String) (v : CommitRecord)
    (p : String) (h : mContains m p = true) :
    mContains (mInsert m k v) p = true := by
  simp only [mContains, mInsert, List.any_cons, Bool.or_eq_true]
  right
  exact h

lemma mContains_insert_elim (m : Manifest) (k : String) (v : CommitRecord)
    (p : String) (h : mContains (mInsert m k v) p = true) :
    p = k ∨ mContains m p = true := by
  simp only [mContains, mInsert, List.any_cons, Bool.or_eq_true, beq_iff_eq] at h
  rcases h with h | h
  · left; exact h.symm
  · right; exact h

lemma mContains_iff_mem (m : Manifest) (k : String) :
    mContains m k = true ↔ k ∈ m.map Prod.fst := by
  simp only [mContains, List.any_eq_true, List.mem_map, beq_iff_eq]

/- The loop body either leaves the state unchanged (and then a committable
item must already have been in the manifest) or performs exactly one commit. -/
lemma stepItem_cases (st : RunState) (it : Item) :
    (stepItem st it = st ∧
      (committableI it = true → mContains st.processed it.ident = true)) ∨
    (committableI it = true ∧ mContains st.processed it.ident = false ∧
      stepItem st it =
        { processed := mInsert st.processed it.ident it.meta
          writes := st.writes ++ [it.outPath]
          newProcessed := true }) := by
  unfold stepItem
  by_cases hp : it.passes = false
  · left
    refine ⟨by rw [if_pos hp], ?_⟩
    intro hcc
    unfold committableI at hcc
    rw [Bool.and_eq_true] at hcc
    rw [hp] at hcc
    exact absurd hcc.1 Bool.false_ne_true
  · rw [if_neg hp]
    by_cases hm : mContains st.processed it.ident = true
    · left
      exact ⟨by rw [if_pos hm], fun _ => hm⟩
    · rw [if_neg hm]
      cases hfetch : it.fetch with
      | error e =>
        left
        refine ⟨rfl, ?_⟩
        intro hcc
        unfold committableI at hcc
        rw [Bool.and_eq_true, hfetch] at hcc
        exact absurd hcc.2 Bool.false_ne_true
      | ok df =>
        by_cases hde : dfEmpty df = true
        · left
          refine ⟨by simp [hde], ?_⟩
          intro hcc
          unfold committableI at hcc
          rw [Bool.and_eq_true, hfetch] at hcc
          have h2 : (!dfEmpty df) = true := hcc.2
          rw [hde] at h2
          exact absurd h2 (by decide)
        · right
          have hp' : it.passes = true := by
            cases hpt : it.passes
            · exact absurd hpt hp
            · rfl
          refine ⟨?_, Bool.eq_false_iff.mpr hm, by simp [hde]⟩
          unfold committableI
          rw [hfetch, hp']
          simp [Bool.eq_false_iff.mpr hde]

lemma stepItem_skip (st : RunState) (it : Item)
    (h : committableI it = false ∨ mContains st.processed it.ident = true) :
    stepItem st it = st := by
  rcases stepItem_cases st it with ⟨heq, _⟩ | ⟨hcomm, hmc, _⟩
  · exact heq
  · rcases h with h | h
    · rw [hcomm] at h; cases h
    · rw [hmc] at h; cases h

lemma stepItem_mono (st : RunState) (it : Item) (p : String)
    (h : mContains st.processed p = true) :
    mContains (stepItem st it).processed p = true := by
  rcases stepItem_cases st it with ⟨heq, _⟩ | ⟨_, _, heq⟩
  · rw [heq]; exact h
  · rw [heq]; exact mContains_insert_mono _ _ _ _ h

/- runLoop invariants. -/

lemma runLoop_mono (its : List Item) :
    ∀ (st : RunState) (p : String), mContains st.processed p = true →
      mContains (runLoop its st).processed p = true := by
  induction its with
  | nil => intro st p h; exact h
  | cons a rest ih =>
    intro st p h
    exact ih (stepItem st a) p (stepItem_mono st a p h)

lemma runLoop_commits (its : List Item) :
    ∀ (st : RunState) (it : Item), it ∈ its → committableI it = true →
      mContains (runLoop its st).processed it.ident = true := by
  induction its with
  | nil => intro st it h; cases h
  | cons a rest ih =>
    intro st it hmem hc
    rcases List.mem_cons.mp hmem with rfl | hmem2
    · rcases stepItem_cases st it with ⟨heq, himp⟩ | ⟨_, _, heq⟩
      · show mContains (runLoop rest (stepItem st it)).processed it.ident = true
        rw [heq]
        exact runLoop_mono rest st it.ident (himp hc)
      · show mContains (runLoop rest (stepItem st it)).processed it.ident = true
        rw [heq]
        exact runLoop_mono rest _ it.ident (mContains_insert_self _ _ _)
    · exact ih (stepItem st a) it hmem2 hc

lemma runLoop_skip_all (its : List Item) :
    ∀ st : RunState,
      (∀ it ∈ its, committableI it = false ∨ mContains st.processed it.ident = true) →
      runLoop its st = st := by
  induction its with
  | nil => intro st _; rfl
  | cons a rest ih =>
    intro st h
    have ha := stepItem_skip st a (h a (List.mem_cons_self a rest))
    show runLoop rest (stepItem st a) = st
    rw [ha]
    exact ih st (fun it hit => h it (List.mem_cons_of_mem _ hit))

lemma runLoop_new (its : List Item) :
    ∀ st : RunState, (runLoop its st).newProcessed =
      (st.newProcessed ||
        its.any (fun it => committableI it && !(mContains st.processed it.ident))) := by
  induction its with
  | nil => intro st; simp [runLoop]
  | cons a rest ih =>
    intro st
    show (runLoop rest (stepItem st a)).newProcessed = _
    rcases stepItem_cases st a with ⟨heq, himp⟩ | ⟨hcomm, hmc, heq⟩
    · rw [heq, ih st]
      have hfa : (committableI a && !(mContains st.processed a.ident)) = false := by
        cases hca : committableI a
        · simp
        · rw [himp hca]; simp
      rw [List.any_cons, hfa, Bool.false_or]
    · rw [heq, ih]
      have : (committableI a && !(mContains st.processed a.ident)) = true := by
        rw [hcomm, hmc]; simp
      rw [List.any_cons, this]
      simp

lemma runLoop_origin (its : List Item) :
    ∀ (st : RunState) (p : String),
      mContains (runLoop its st).processed p = true →
      mContains st.processed p = true ∨
        ∃ it ∈ its, committableI it = true ∧ it.ident = p := by
  induction its with
  | nil => intro st p h; left; exact h
  | cons a rest ih =>
    intro st p h
    rcases ih (stepItem st a) p h with h2 | ⟨it, hmem, hc, hid⟩
    · rcases stepItem_cases st a with ⟨heq, _⟩ | ⟨hcomm, hmc, heq⟩
      · rw [heq] at h2
        left; exact h2
      · rw [heq] at h2
        rcases mContains_insert_elim _ _ _ _ h2 with hpk | hin
        · right
          exact ⟨a, List.mem_cons_self a rest, hcomm, hpk.symm⟩
        · left; exact hin
    · right
      exact ⟨it, List.mem_cons_of_mem _ hmem, hc, hid⟩

lemma runLoop_nodup (its : List Item) :
    ∀ st : RunState, (st.processed.map Prod.fst).Nodup →
      ((runLoop its st).processed.map Prod.fst).Nodup := by
  induction its with
  | nil => intro st h; exact h
  | cons a rest ih =>
    intro st h
    apply ih
    rcases stepItem_cases st a with ⟨heq, _⟩ | ⟨_, hmc, heq⟩
    · rw [heq]; exact h
    · rw [heq]
      show ((mInsert st.processed a.ident a.meta).map Prod.fst).Nodup
      unfold mInsert
      rw [List.map_cons]
      refine List.Nodup.cons ?_ h
      intro hmem
      have := (mContains_iff_mem st.processed a.ident).mpr hmem
      rw [hmc] at this
      cases this

lemma s3Item_ident (cfg : RunCfg) (flt : Option (List String)) (o : S3Obj) :
    (s3Item cfg flt o).ident = s3Path o := rfl

lemma s3Item_committable (cfg : RunCfg) (flt : Option (List String)) (o : S3Obj) :
    committableI (s3Item cfg flt o) = s3Committable flt o := rfl

lemma pgItem_ident (cfg : RunCfg) (host db : String) (tb : PgTable) :
    (pgItem cfg host db tb).ident = pgId host db tb := rfl

lemma pgItem_committable (cfg : RunCfg) (host db : String) (tb : PgTable) :
    committableI (pgItem cfg host db tb) = pgCommittable tb := rfl

/-- C1: re-running process_s3_prefix against an unchanged source set is
idempotent: an object whose s3:// identifier is already a manifest key is
skipped with no artifact write and no manifest mutation, the second run
performs zero artifact writes and zero manifest writes and leaves the
manifest unchanged, and after the first run the manifest holds exactly one
CommitRecord per successfully committed object (keys are exactly the
committable objects' identifiers, without duplicates). -/
theorem s3_second_run_idempotent (cfg : RunCfg) (flt : Option (List String))
    (objs : List S3Obj) :
    (∀ (st : RunState) (o : S3Obj), mContains st.processed (s3Path o) = true →
      stepItem st (s3Item cfg flt o) = st) ∧
    (runS3Batch cfg flt objs ((runS3Batch cfg flt objs []).1.processed)).1.writes = [] ∧
    (runS3Batch cfg flt objs ((runS3Batch cfg flt objs []).1.processed)).2 = 0 ∧
    (runS3Batch cfg flt objs ((runS3Batch cfg flt objs []).1.processed)).1.processed =
      (runS3Batch cfg flt objs []).1.processed ∧
    (∀ p, mContains ((runS3Batch cfg flt objs []).1.processed) p = true ↔
      ∃ o ∈ objs, s3Committable flt o = true ∧ s3Path o = p) ∧
    ((runS3Batch cfg flt objs []).1.processed.map Prod.fst).Nodup := by
  have hskip : ∀ (st : RunState) (o : S3Obj), mContains st.processed (s3Path o) = true →
      stepItem st (s3Item cfg flt o) = st := by
    intro st o h
    exact stepItem_skip st _ (Or.inr (by rw [s3Item_ident]; exact h))
  have hA : ∀ o ∈ objs, s3Committable flt o = true →
      mContains ((runS3Batch cfg flt objs []).1.processed) (s3Path o) = true := by
    intro o hmem hc
    show mContains
      ((runLoop (objs.map (s3Item cfg flt)) (initState [])).processed) (s3Path o) = true
    rw [← s3Item_ident cfg flt o]
    exact runLoop_commits _ _ _ (List.mem_map_of_mem _ hmem)
      (by rw [s3Item_committable]; exact hc)
  have hall : ∀ it ∈ objs.map (s3Item cfg flt),
      committableI it = false ∨
      mContains ((runS3Batch cfg flt objs []).1.processed) it.ident = true := by
    intro it hmem
    rcases List.mem_map.mp hmem with ⟨o, ho, rfl⟩
    cases hc : s3Committable flt o
    · left
      rw [s3Item_committable]
      exact hc
    · right
      rw [s3Item_ident]
      exact hA o ho hc
  have hrun2 : runLoop (objs.map (s3Item cfg flt))
      (initState ((runS3Batch cfg flt objs []).1.processed)) =
      initState ((runS3Batch cfg flt objs []).1.processed) :=
    runLoop_skip_all _ _ (fun it hmem => hall it hmem)
  refine ⟨hskip, ?_, ?_, ?_, ?_, ?_⟩
  · show (runLoop (objs.map (s3Item cfg flt))
      (initState ((runS3Batch cfg flt objs []).1.processed))).writes = []
    rw [hrun2]
    rfl
  · show (if (runLoop (objs.map (s3Item cfg flt))
      (initState ((runS3Batch cfg flt objs []).1.processed))).newProcessed
      then 1 else 0) = 0
    rw [hrun2]
    rfl
  · show (runLoop (objs.map (s3Item cfg flt))
      (initState ((runS3Batch cfg flt objs []).1.processed))).processed =
      (runS3Batch cfg flt objs []).1.processed
    rw [hrun2]
    rfl
  · intro p
    constructor
    · intro hp
      have hp2 : mContains
          ((runLoop (objs.map (s3Item cfg flt)) (initState [])).processed) p = true := hp
      rcases runLoop_origin _ _ _ hp2 with h | ⟨it, hmem, hc, hid⟩
      · simp [mContains, initState] at h
      · rcases List.mem_map.mp hmem with ⟨o, ho, rfl⟩
        refine ⟨o, ho, ?_, ?_⟩
        · rw [← s3Item_committable cfg flt o]
          exact hc
        · rw [← s3Item_ident cfg flt o]
          exact hid
    · rintro ⟨o, ho, hc, rfl⟩
      exact hA o ho hc
  · show ((runLoop (objs.map (s3Item cfg flt)) (initState [])).processed.map Prod.fst).Nodup
    exact runLoop_nodup _ _ (by simp [initState])

/-- Witness for C1's per-item skip at a concrete already-processed object. -/
theorem s3_second_run_idempotent_witness :
    stepItem
      (initState [("s3://bkt/data.csv",
        CommitRecord.mk "customers" "s3://bkt/data.csv" "t" 1 "h")])
      (s3Item (RunCfg.mk "rawb" "raw" "customers" (UtcTime.mk 2025 11 26 10 0 0 0))
        Option.none
        (S3Obj.mk "bkt" "data.csv" 10 (Except.ok (DF.mk [("a", [CVal.intv 1])]))
          (Except.error "x") (Except.error "x"))) =
    initState [("s3://bkt/data.csv",
      CommitRecord.mk "customers" "s3://bkt/data.csv" "t" 1 "h")] :=
  (s3_second_run_idempotent
    (RunCfg.mk "rawb" "raw" "customers" (UtcTime.mk 2025 11 26 10 0 0 0))
    Option.none []).1
    (initState [("s3://bkt/data.csv",
      CommitRecord.mk "customers" "s3://bkt/data.csv" "t" 1 "h")])
    (S3Obj.mk "bkt" "data.csv" 10 (Except.ok (DF.mk [("a", [CVal.intv 1])]))
      (Except.error "x") (Except.error "x"))
    (by decide)

/-- C4 counterexample: in the spreadsheet category a failure during
extraction is NOT caught inside process_google_sheet — the function has no
try/except, so the error propagates to the caller and aborts the run,
contradicting the claim that no per-item failure propagates past the item
loop in any source category. -/
theorem sheet_failure_propagates :
    processSheet (RunCfg.mk "rawb" "raw" "agents" (UtcTime.mk 2025 11 26 0 0 0 0))
      (SheetSrc.mk "sheet1" "Agents!A1:Z999" (Except.error "HttpError"))
      [] = Except.error "HttpError" := by
  decide

/-- C4 amended: per-item isolation holds in the object-store and relational
item loops — an exception while processing one item is caught and every
other committable item is still committed — but the spreadsheet flow has no
per-item catch: when its identifier is not yet in the manifest, an
extraction failure propagates out of process_google_sheet to the caller. -/
theorem per_item_isolation (cfg : RunCfg) :
    (∀ (flt : Option (List String)) (objs : List S3Obj) (m : Manifest) (o : S3Obj),
      o ∈ objs → s3Committable flt o = true →
      mContains ((runS3Batch cfg flt objs m).1.processed) (s3Path o) = true) ∧
    (∀ (host db : String) (tbls : List PgTable) (m : Manifest) (tb : PgTable),
      tb ∈ tbls → pgCommittable tb = true →
      mContains ((runPgBatch cfg host db tbls m).1.processed) (pgId host db tb) = true) ∧
    (∀ (src : SheetSrc) (m : Manifest) (e : String),
      mContains m ("google_sheets://" ++ src.docId ++ "/" ++ src.rangeName) = false →
      src.fetch = Except.error e →
      processSheet cfg src m = Except.error e) := by
  refine ⟨?_, ?_, ?_⟩
  · intro flt objs m o hmem hc
    show mContains
      ((runLoop (objs.map (s3Item cfg flt)) (initState m)).processed) (s3Path o) = true
    rw [← s3Item_ident cfg flt o]
    exact runLoop_commits _ _ _ (List.mem_map_of_mem _ hmem)
      (by rw [s3Item_committable]; exact hc)
  · intro host db tbls m tb hmem hc
    show mContains
      ((runLoop (tbls.map (pgItem cfg host db)) (initState m)).processed)
      (pgId host db tb) = true
    rw [← pgItem_ident cfg host db tb]
    exact runLoop_commits _ _ _ (List.mem_map_of_mem _ hmem)
      (by rw [pgItem_committable]; exact hc)
  · intro src m e hm hf
    unfold processSheet
    rw [if_neg (by rw [hm]; exact Bool.false_ne_true), hf]

/-- Witness for C4 amended: a three-object batch whose middle object's read
raises still commits the first and third objects, and a concrete failing
sheet read propagates. -/
theorem per_item_isolation_witness :
    mContains ((runS3Batch (RunCfg.mk "rawb" "raw" "customers" (UtcTime.mk 2025 11 26 0 0 0 0))
        Option.none
        [S3Obj.mk "b" "one.csv" 1 (Except.ok (DF.mk [("a", [CVal.intv 1])]))
           (Except.error "x") (Except.error "x"),
         S3Obj.mk "b" "two.csv" 1 (Except.error "ClientError")
           (Except.error "x") (Except.error "x"),
         S3Obj.mk "b" "three.csv" 1 (Except.ok (DF.mk [("a", [CVal.intv 2])]))
           (Except.error "x") (Except.error "x")]
        []).1.processed)
      (s3Path (S3Obj.mk "b" "three.csv" 1 (Except.ok (DF.mk [("a", [CVal.intv 2])]))
        (Except.error "x") (Except.error "x"))) = true ∧
    processSheet (RunCfg.mk "rawb" "raw" "agents" (UtcTime.mk 2025 11 26 0 0 0 0))
      (SheetSrc.mk "sid" "A1:Z9" (Except.error "boom")) [] = Except.error "boom" := by
  constructor
  · exact (per_item_isolation
      (RunCfg.mk "rawb" "raw" "customers" (UtcTime.mk 2025 11 26 0 0 0 0))).1
      Option.none _ []
      (S3Obj.mk "b" "three.csv" 1 (Except.ok (DF.mk [("a", [CVal.intv 2])]))
        (Except.error "x") (Except.error "x"))
      (by decide) (by decide)
  · exact (per_item_isolation
      (RunCfg.mk "rawb" "raw" "agents" (UtcTime.mk 2025 11 26 0 0 0 0))).2.2
      (SheetSrc.mk "sid" "A1:Z9" (Except.error "boom")) [] "boom"
      (by decide) rfl

/-- C9: a candidate whose extraction yields a zero-row dataset is skipped in
every flow: no artifact write, no manifest entry, no error — the state is
returned unchanged (the spreadsheet flow returns the no-op state and no
manifest write). -/
theorem empty_extraction_skipped :
    (∀ (cfg : RunCfg) (flt : Option (List String)) (st : RunState) (o : S3Obj) (df : DF),
      (retriedDownload o).2 = Except.ok df → nrowsDF df = 0 →
      stepItem st (s3Item cfg flt o) = st) ∧
    (∀ (cfg : RunCfg) (host db : String) (st : RunState) (tb : PgTable) (df : DF),
      tb.fetch = Except.ok df → nrowsDF df = 0 →
      stepItem st (pgItem cfg host db tb) = st) ∧
    (∀ (cfg : RunCfg) (src : SheetSrc) (m : Manifest) (df : DF),
      src.fetch = Except.ok df → nrowsDF df = 0 →
      processSheet cfg src m = Except.ok (initState m, 0)) := by
  refine ⟨?_, ?_, ?_⟩
  · intro cfg flt st o df hf hr
    apply stepItem_skip
    left
    unfold committableI
    have hfe : (s3Item cfg flt o).fetch = Except.ok df := hf
    rw [hfe]
    simp [dfEmpty, hr]
  · intro cfg host db st tb df hf hr
    apply stepItem_skip
    left
    unfold committableI
    have hfe : (pgItem cfg host db tb).fetch = Except.ok df := hf
    rw [hfe]
    simp [dfEmpty, hr]
  · intro cfg src m df hf hr
    have hde : dfEmpty df = true := by simp [dfEmpty, hr]
    simp [processSheet, hf, hde]

/-- Witness for C9 at a concrete zero-row dataframe in each flow. -/
theorem empty_extraction_skipped_witness :
    stepItem (initState [])
      (s3Item (RunCfg.mk "rawb" "raw" "customers" (UtcTime.mk 2025 11 26 0 0 0 0))
        Option.none
        (S3Obj.mk "b" "empty.csv" 0 (Except.ok (DF.mk [("a", [])]))
          (Except.error "x") (Except.error "x"))) = initState [] ∧
    processSheet (RunCfg.mk "rawb" "raw" "agents" (UtcTime.mk 2025 11 26 0 0 0 0))
      (SheetSrc.mk "sid" "A1:Z9" (Except.ok (DF.mk []))) [] =
      Except.ok (initState [], 0) := by
  constructor
  · exact empty_extraction_skipped.1
      (RunCfg.mk "rawb" "raw" "customers" (UtcTime.mk 2025 11 26 0 0 0 0))
      Option.none (initState [])
      (S3Obj.mk "b" "empty.csv" 0 (Except.ok (DF.mk [("a", [])]))
        (Except.error "x") (Except.error "x"))
      (DF.mk [("a", [])]) (by decide) (by decide)
  · exact empty_extraction_skipped.2.2
      (RunCfg.mk "rawb" "raw" "agents" (UtcTime.mk 2025 11 26 0 0 0 0))
      (SheetSrc.mk "sid" "A1:Z9" (Except.ok (DF.mk []))) [] (DF.mk [])
      rfl (by decide)

lemma anyMapGen {A B : Type} (f : A -> B) (p : B -> Bool) (l : List A) :
    (l.map f).any p = l.any (fun a => p (f a)) := by
  induction l with
  | nil => rfl
  | cons a rest ih =>
    simp only [List.map_cons, List.any_cons, ih]

/-- C5 counterexample: a process_postgres_tables batch whose only candidate
is already in the manifest skips every candidate (state unchanged, zero
artifact writes) yet still calls write_processed_manifest once — the claim
says no flush happens when every candidate was skipped. -/
theorem pg_flush_with_all_skipped :
    (runPgBatch (RunCfg.mk "rawb" "raw" "web_forms" (UtcTime.mk 2025 11 26 0 0 0 0))
      "h" "d" [PgTable.mk "t1" (Except.ok (DF.mk [("a", [CVal.intv 1])]))]
      [("postgres://h/d/t1",
        CommitRecord.mk "web_forms" "postgres://h/d/t1" "t" 1 "s")]).1 =
      initState [("postgres://h/d/t1",
        CommitRecord.mk "web_forms" "postgres://h/d/t1" "t" 1 "s")] ∧
    (runPgBatch (RunCfg.mk "rawb" "raw" "web_forms" (UtcTime.mk 2025 11 26 0 0 0 0))
      "h" "d" [PgTable.mk "t1" (Except.ok (DF.mk [("a", [CVal.intv 1])]))]
      [("postgres://h/d/t1",
        CommitRecord.mk "web_forms" "postgres://h/d/t1" "t" 1 "s")]).2 = 1 := by
  constructor
  · decide
  · rfl

/-- C5 amended: in the object-store flow the manifest is flushed exactly
once iff at least one candidate was newly committed and not at all when
every candidate was skipped; the relational flow instead calls
write_processed_manifest exactly once unconditionally, even when every
candidate was skipped. -/
theorem flush_policy :
    (∀ (cfg : RunCfg) (flt : Option (List String)) (objs : List S3Obj) (m : Manifest),
      (runS3Batch cfg flt objs m).2 =
        if objs.any (fun o => s3Committable flt o && !(mContains m (s3Path o)))
        then 1 else 0) ∧
    (∀ (cfg : RunCfg) (host db : String) (tbls : List PgTable) (m : Manifest),
      (runPgBatch cfg host db tbls m).2 = 1) := by
  constructor
  · intro cfg flt objs m
    show (if (runLoop (objs.map (s3Item cfg flt)) (initState m)).newProcessed
      then 1 else 0) = _
    rw [runLoop_new]
    rw [show (initState m).newProcessed = false from rfl, Bool.false_or]
    have hmap : (List.map (s3Item cfg flt) objs).any
        (fun it => committableI it && !(mContains (initState m).processed it.ident)) =
        objs.any (fun o => s3Committable flt o && !(mContains m (s3Path o))) := by
      rw [anyMapGen]
      rfl
    rw [hmap]
  · intro cfg host db tbls m
    rfl

/- retryGo on a callable that fails every attempt uses all remaining
attempts and returns the last error. -/
lemma retryGo_const_err (f : Nat → Except String DF) (e : String)
    (h : ∀ n, f n = Except.error e) :
    ∀ (rem used : Nat), 1 ≤ rem → retryGo f used rem = (used + rem, Except.error e) := by
  intro rem
  induction rem with
  | zero => intro used h0; omega
  | succ r ih =>
    intro used _
    by_cases hr0 : r = 0
    · subst hr0
      simp [retryGo, h used]
    · have hne : (r == 0) = false := by simp [hr0]
      have hstep : retryGo f used (r + 1) = retryGo f (used + 1) r := by
        simp only [retryGo, h used, hne]
        rfl
      rw [hstep, ih (used + 1) (by omega)]
      refine congrArg (fun n => (n, Except.error e)) ?_
      omega

lemma retryGo_const_ok (f : Nat → Except String DF) (df : DF)
    (h : ∀ n, f n = Except.ok df) (used rem : Nat) :
    retryGo f used (rem + 1) = (used + 1, Except.ok df) := by
  simp [retryGo, h used]

/-- C3 counterexample: reading an object with an unsupported extension makes
5 attempts, not the single attempt the claim asserts for permanent errors. -/
theorem unsupported_ext_five_attempts :
    (retriedDownload (S3Obj.mk "b" "file.parquet" 1 (Except.ok (DF.mk []))
      (Except.ok (DF.mk [])) (Except.ok (DF.mk [])))).1 = 5 ∧
    ¬ ((retriedDownload (S3Obj.mk "b" "file.parquet" 1 (Except.ok (DF.mk []))
      (Except.ok (DF.mk [])) (Except.ok (DF.mk [])))).1 = 1) := by
  decide

/-- C3 amended: an object whose extension is not csv, txt, or json fails
with the permanent "Unsupported extension" ValueError, but the tenacity
policy retry_if_exception_type(Exception) retries EVERY failure: any read
that raises deterministically — the unsupported-extension error included —
is attempted exactly 5 times before the error surfaces (and a succeeding
read is attempted once). -/
theorem unsupported_ext_retried :
    (∀ o : S3Obj, (extOf o.key == "csv") = false → (extOf o.key == "txt") = false →
      (extOf o.key == "json") = false →
      downloadS3 o = Except.error ("Unsupported extension: " ++ extOf o.key)) ∧
    (∀ (o : S3Obj) (e : String), downloadS3 o = Except.error e →
      retriedDownload o = (5, Except.error e)) ∧
    (∀ (o : S3Obj) (df : DF), downloadS3 o = Except.ok df →
      retriedDownload o = (1, Except.ok df)) := by
  refine ⟨?_, ?_, ?_⟩
  · intro o h1 h2 h3
    simp only [downloadS3]
    rw [h1, h2, h3]
    simp
  · intro o e h
    unfold retriedDownload
    have := retryGo_const_err (fun _ => downloadS3 o) e (fun _ => h) 5 0 (by omega)
    simpa using this
  · intro o df h
    unfold retriedDownload
    have := retryGo_const_ok (fun _ => downloadS3 o) df (fun _ => h) 0 4
    simpa using this

/-- Witness for C3 amended at the concrete parquet object. -/
theorem unsupported_ext_retried_witness :
    downloadS3 (S3Obj.mk "b" "file.parquet" 1 (Except.ok (DF.mk []))
      (Except.ok (DF.mk [])) (Except.ok (DF.mk []))) =
      Except.error ("Unsupported extension: " ++
        extOf (S3Obj.mk "b" "file.parquet" 1 (Except.ok (DF.mk []))
          (Except.ok (DF.mk [])) (Except.ok (DF.mk []))).key) ∧
    retriedDownload (S3Obj.mk "b" "file.parquet" 1 (Except.ok (DF.mk []))
      (Except.ok (DF.mk [])) (Except.ok (DF.mk []))) =
      (5, Except.error ("Unsupported extension: " ++
        extOf (S3Obj.mk "b" "file.parquet" 1 (Except.ok (DF.mk []))
          (Except.ok (DF.mk [])) (Except.ok (DF.mk []))).key)) := by
  have h1 := unsupported_ext_retried.1
    (S3Obj.mk "b" "file.parquet" 1 (Except.ok (DF.mk []))
      (Except.ok (DF.mk [])) (Except.ok (DF.mk []))) (by decide) (by decide) (by decide)
  exact ⟨h1, unsupported_ext_retried.2.1 _ _ h1⟩

lemma stringExt {s t : String} (h : s.data = t.data) : s = t := by
  cases s
  cases t
  exact congrArg String.mk h

lemma mkOutKey_data (root src base : String) (t : UtcTime) :
    (mkOutKey root src base t).data =
      (root ++ "/" ++ src ++ "/date=" ++ fmtDate t ++ "/" ++ base ++ "_").data ++
        (fmtTs t).data ++ ".parquet".data := by
  unfold mkOutKey
  rw [String.data_append, String.data_append]

/-- C2 counterexample: two distinct write instants inside the same calendar
second (they differ only in microseconds) produce the SAME output key, since
the key embeds strftime('%Y%m%d%H%M%S') which has second granularity — so a
second write of the same source item within the same second would target the
already-committed artifact's key, contradicting the claimed distinctness. -/
theorem same_second_key_collision :
    UtcTime.mk 2025 11 26 10 30 15 0 ≠ UtcTime.mk 2025 11 26 10 30 15 500000 ∧
    mkOutKey "raw" "customers" "customers" (UtcTime.mk 2025 11 26 10 30 15 0) =
      mkOutKey "raw" "customers" "customers" (UtcTime.mk 2025 11 26 10 30 15 500000) := by
  exact ⟨by decide, rfl⟩

/-- C2 amended: two write invocations construct distinct output keys
whenever their second-granularity timestamps differ as formatted strings
(with the same 14-character length in the operating range); uniqueness is
only per formatted second, not per invocation. -/
theorem distinct_ts_distinct_keys (root src base : String) (t1 t2 : UtcTime)
    (hne : fmtTs t1 ≠ fmtTs t2)
    (hlen : (fmtTs t1).length = (fmtTs t2).length) :
    mkOutKey root src base t1 ≠ mkOutKey root src base t2 := by
  intro heq
  apply hne
  have hdata := congrArg String.data heq
  rw [mkOutKey_data, mkOutKey_data] at hdata
  have h1 := (List.append_inj' hdata rfl).1
  have h2 := (List.append_inj' h1 hlen).2
  exact stringExt h2

/-- Witness for C2 amended at two instants one second apart. -/
theorem distinct_ts_distinct_keys_witness :
    mkOutKey "raw" "customers" "customers" (UtcTime.mk 2025 11 26 10 30 15 0) ≠
      mkOutKey "raw" "customers" "customers" (UtcTime.mk 2025 11 26 10 30 16 0) :=
  distinct_ts_distinct_keys "raw" "customers" "customers"
    (UtcTime.mk 2025 11 26 10 30 15 0) (UtcTime.mk 2025 11 26 10 30 16 0)
    (by decide) (by decide)

/-- C6 counterexample: when the data upload raises, write_parquet_to_s3_atomic
returns without removing the scratch file (os.remove is only reached after
both uploads; there is no try/finally), contradicting removal on every path. -/
theorem tmp_not_removed_on_upload_failure :
    (write_parquet_to_s3_atomic (WriteEnv.mk (Except.error "upload failed")
      (Except.ok ())) "bkt" "raw/k.parquet").tmpRemoved = false := by
  decide

/-- C6 amended: the uniquely named scratch file is removed iff both the data
upload and the sidecar upload succeed; on either upload failure the function
raises with the scratch file left behind. -/
theorem tmp_removed_iff_uploads_ok (env : WriteEnv) (bucket key : String) :
    ((write_parquet_to_s3_atomic env bucket key).tmpRemoved = true ↔
      (okB env.dataUp = true ∧ okB env.sidecarUp = true)) ∧
    ((write_parquet_to_s3_atomic env bucket key).tmpRemoved = true ↔
      (write_parquet_to_s3_atomic env bucket key).result =
        Except.ok ("s3://" ++ bucket ++ "/" ++ key)) := by
  cases hd : env.dataUp with
  | error e =>
    constructor
    · constructor
      · intro h
        simp [write_parquet_to_s3_atomic, hd] at h
      · intro h
        rw [show okB (Except.error e) = false from rfl] at h
        exact absurd h.1 (by simp [hd])
    · constructor
      · intro h
        simp [write_parquet_to_s3_atomic, hd] at h
      · intro h
        simp [write_parquet_to_s3_atomic, hd] at h
  | ok u =>
    cases hs : env.sidecarUp with
    | error e =>
      constructor
      · constructor
        · intro h
          simp [write_parquet_to_s3_atomic, hd, hs] at h
        · intro h
          exact absurd h.2 (by simp [hs, okB])
      · constructor
        · intro h
          simp [write_parquet_to_s3_atomic, hd, hs] at h
        · intro h
          simp [write_parquet_to_s3_atomic, hd, hs] at h
    | ok u2 =>
      constructor
      · constructor
        · intro _
          exact ⟨by simp [hd, okB], by simp [hs, okB]⟩
        · intro _
          simp [write_parquet_to_s3_atomic, hd, hs]
      · constructor
        · intro _
          simp [write_parquet_to_s3_atomic, hd, hs]
        · intro _
          simp [write_parquet_to_s3_atomic, hd, hs]
